import Mathlib

/-!
Verification of the elephant query dispatcher
(`internal/comm/handlers/queryrequesthandler.go`).

The dispatcher is embedded shallowly: the handler becomes a pure function
from its decoded request, the global configuration, the provider registry,
a cooperative-cancellation schedule and the query counter to the list of
frames written on the connection.  Go strings are byte slices holding
UTF-8; they are modelled as Lean `String` with the byte-wise primitives
(`strings.Compare`, `strings.HasPrefix`, `strings.Split`) re-expressed on
the underlying character list, where byte order and code-point order
agree.  `strings.ToLower` is modelled as per-character lowering.
Machine integers that can overflow (`qid` is a `uint32`, the envelope
field is an `int32`) are modelled as `Nat`/`Int` with explicit reduction
modulo `2^32`.
-/

namespace Elephant

/-- Per-character lowering of a string; models `strings.ToLower` as used on
the `text` fields compared by the ranking comparator. -/
def goToLower (s : String) : String := ⟨s.data.map Char.toLower⟩

/-- Lexicographic three-way comparison of character lists by code point;
models the byte-wise `strings.Compare` on valid UTF-8 strings. -/
def lexCmp : List Char → List Char → Int
  | [], [] => 0
  | [], _ :: _ => -1
  | _ :: _, [] => 1
  | a :: as, b :: bs =>
    if a.toNat < b.toNat then -1
    else if b.toNat < a.toNat then 1
    else lexCmp as bs

/-- Models `strings.Compare`. -/
def stringsCompare (a b : String) : Int := lexCmp a.data b.data

/-- Models `strings.HasPrefix`. -/
def goStartsWith (s p : String) : Bool := p.data.isPrefixOf s.data

/-- Splitting a character list at every occurrence of a separator
character; models `strings.Split` with a one-character separator. -/
def splitSep (sep : Char) : List Char → List (List Char)
  | [] => [[]]
  | c :: rest =>
    if c = sep then [] :: splitSep sep rest
    else
      match splitSep sep rest with
      | [] => [[c]]
      | h :: t => (c :: h) :: t

/-- Models `strings.Split(v, ":")`. -/
def goSplitColon (v : String) : List String :=
  (splitSep ':' v.data).map (fun l => ⟨l⟩)

/-- The fields of `pb.QueryResponse_Item` that the dispatcher inspects
(`Score`, `Text`, `Provider`) together with the opaque identifying data it
merely forwards. -/
structure Item where
  Identifier : String
  Text : String
  Subtext : String
  Provider : String
  Score : Int
  deriving Repr, DecidableEq

/-- The decoded `pb.QueryRequest`. -/
structure QueryRequest where
  Providers : List String
  Query : String
  Maxresults : Int
  Exactsearch : Bool
  deriving Repr, DecidableEq

/-- The package-level configuration read by the handler:
`MaxGlobalItemsToDisplayWebsearch`, `WebsearchAlwaysShow` and
`WebsearchPrefixes`.  The Go prefix map is modelled as an association
list; Go map iteration visits each binding once in some order, which the
list order represents. -/
structure Config where
  MaxGlobalItemsToDisplayWebsearch : Int
  WebsearchAlwaysShow : Bool
  WebsearchPrefixes : List (String × String)

/-- A provider's `Query` entrypoint: it receives the (possibly rewritten)
query text, the `single` flag (`len(req.Providers) == 1`) and the
`exactsearch` flag and returns its items.  The connection handle and wire
format do not influence the returned items. -/
abbrev ProviderFn := String → Bool → Bool → List Item

/-- The provider registry `providers.Providers`, as the partial map the
handler consults. -/
abbrev Registry := String → Option ProviderFn

/-- One frame written on the connection by the query handler: a
`QueryItem` data frame carrying the response envelope, or one of the
status frames `QueryNoResults` (opcode 254) and `QueryDone` (opcode 255). -/
inductive Frame where
  | queryItem (qid : Int) (query : String) (item : Item)
  | queryNoResults
  | queryDone
  deriving Repr, DecidableEq

/-- Models `sortEntries` (queryrequesthandler.go lines 235-245): negative
when `a` ranks before `b`, via score descending then case-insensitive
text ascending. -/
def sortEntries (a b : Item) : Int :=
  if a.Score > b.Score then -1
  else if b.Score > a.Score then 1
  else stringsCompare (goToLower a.Text) (goToLower b.Text)

/-- The non-strict order induced by the comparator, used to state
sortedness of the handler's output. -/
def entryLE (a b : Item) : Prop := sortEntries a b ≤ 0

instance : DecidableRel entryLE := fun a b => by
  unfold entryLE; infer_instance

/-- The ranking order as the specification words it: strictly greater
score first, ties in non-decreasing case-insensitively lowered text. -/
def rankLE (a b : Item) : Prop :=
  b.Score < a.Score ∨
    (a.Score = b.Score ∧ stringsCompare (goToLower a.Text) (goToLower b.Text) ≤ 0)

/-- Models lines 102-110: the websearch hint is looked up only when
`"websearch"` is among the requested providers, scanning the configured
bindings and keeping the value of the last binding whose key starts the
query. -/
def websearchHint (cfg : Config) (req : QueryRequest) : String :=
  if req.Providers.contains "websearch" then
    cfg.WebsearchPrefixes.foldl
      (fun acc kv => if goStartsWith req.Query kv.1 then kv.2 else acc) ""
  else ""

/-- Models lines 146-150: a provider name starting with `"menus:"` is
split on `":"`; the effective provider is element 0 and the query becomes
element 1 followed by `":"` and the original query.  Other names are
untouched. -/
def rewriteProvider (v query : String) : String × String :=
  if goStartsWith v "menus:" then
    let split := goSplitColon v
    (split.headD "", (split.getD 1 "") ++ ":" ++ query)
  else (v, query)

/-- Models the fan-out of lines 143-164: one task per requested provider,
unknown names contribute nothing, and the barrier collects every task's
items into one sequence.  The goroutines append in a nondeterministic
order; since the handler sorts the merged sequence before any use, the
canonical request order is used here. -/
def fanOut (reg : Registry) (req : QueryRequest) : List Item :=
  req.Providers.flatMap (fun v0 =>
    let pq := rewriteProvider v0 req.Query
    match reg pq.1 with
    | some f => f pq.2 (req.Providers.length == 1) req.Exactsearch
    | none => [])

/-- Models lines 179-181: `entries = entries[:req.Maxresults]` is taken
only when `len(entries) > int(req.Maxresults)`; a negative bound then
makes the slice expression panic, modelled as `none`. -/
def capEntries (entries : List Item) (maxresults : Int) : Option (List Item) :=
  if (entries.length : Int) > maxresults then
    if maxresults < 0 then none
    else some (entries.take maxresults.toNat)
  else some entries

/-- Models line 183. -/
def hideWebsearch (cfg : Config) (req : QueryRequest) (entries : List Item) : Bool :=
  (decide (req.Providers.length > 1) &&
    decide ((entries.length : Int) > cfg.MaxGlobalItemsToDisplayWebsearch)) &&
  !cfg.WebsearchAlwaysShow

/-- Models the emission loop of lines 185-230.  `cncld k` is the value the
`k`-th call of `isCncld` would observe; observing cancellation returns at
once with no further frame.  A surviving item becomes one `QueryItem`
frame; after the last item the unconditional `QueryDone` of line 230 is
written.  (Marshalling of the concrete records never fails, and write
errors are transport failures outside this model.) -/
def emitFrames (hide : Bool) (hint : String) (cncld : Nat → Bool) (qid : Int)
    (query : String) (k : Nat) : List Item → List Frame
  | [] => [Frame.queryDone]
  | v :: rest =>
    if cncld k then []
    else if v.Provider == "websearch" && hide && !(v.Text == hint) then
      emitFrames hide hint cncld qid query (k + 1) rest
    else
      Frame.queryItem qid query v :: emitFrames hide hint cncld qid query (k + 1) rest

/-- Reinterpretation of a `uint32` value as the `int32` stored in the
response envelope by `Qid: int32(qqid)` (line 195). -/
def toInt32 (n : Nat) : Int :=
  if n % 2 ^ 32 < 2 ^ 31 then ((n % 2 ^ 32 : Nat) : Int)
  else ((n % 2 ^ 32 : Nat) : Int) - 2 ^ 32

/-- Models `qid.Add(1)` on the package-level `atomic.Uint32` counter
(line 80): the handler's `qqid` is the incremented value, reduced
modulo `2^32`. -/
def nextQid (q : Nat) : Nat := (q + 1) % 2 ^ 32

/-- The query handler `(*QueryRequest).Handle`, from the decode of the
payload to the frames written for this query.  `decoded` is the result of
the `proto`/`json` unmarshal (lines 87-100); `cncld` is the cancellation
schedule, `cncld 0` being what the barrier check of line 166 observes and
`cncld (k+1)` what the `k`-th loop check of line 186 observes; `qqid` is
the handler's query id.  `none` models the panic of the out-of-bounds
slice of line 180; otherwise the result is the frame list written on the
connection. -/
def Handle (cfg : Config) (reg : Registry) (decoded : Option QueryRequest)
    (cncld : Nat → Bool) (qqid : Nat) : Option (List Frame) :=
  match decoded with
  | none => some []
  | some req =>
    let hint := websearchHint cfg req
    let entries := fanOut reg req
    if cncld 0 then some []
    else
      let sorted := List.insertionSort entryLE entries
      if sorted.isEmpty then some [Frame.queryNoResults, Frame.queryDone]
      else
        match capEntries sorted req.Maxresults with
        | none => none
        | some capped =>
          some (emitFrames (hideWebsearch cfg req capped) hint cncld
            (toInt32 qqid) req.Query 1 capped)

/-- The items carried by the `QueryItem` frames of an output, in emission
order. -/
def queryItemsOf (out : List Frame) : List Item :=
  out.filterMap (fun f =>
    match f with
    | Frame.queryItem _ _ it => some it
    | _ => none)

/-- Lookup in the per-connection cancel table `queries` (cid to cancel
handle; handles are abstracted as numeric tokens). -/
def tableLookup : List (Nat × Nat) → Nat → Option Nat
  | [], _ => none
  | (c, h) :: t, cid => if c = cid then some h else tableLookup t cid

/-- Update-or-insert in the cancel table, models `queries[cid] = cancel`. -/
def tableSet : List (Nat × Nat) → Nat → Nat → List (Nat × Nat)
  | [], cid, h => [(cid, h)]
  | (c, h0) :: t, cid, h =>
    if c = cid then (c, h) :: t else (c, h0) :: tableSet t cid h

/-- Models lines 112-125, the mutex-guarded entry protocol of a new query
on connection `cid` with fresh cancel handle `h`: a previously installed
handle is invoked (second component lists the handles cancelled) and the
slot is set to `h` in every case. -/
def handleEnter (t : List (Nat × Nat)) (cid h : Nat) : List (Nat × Nat) × List Nat :=
  match tableLookup t cid with
  | some old => (tableSet t cid h, [old])
  | none => (tableSet t cid h, [])

/-- Models the handler's exit path: the only deferred action is
`cancel()` (line 115), which invokes the handler's own handle `h`; the
`queries` map is not touched anywhere on exit. -/
def handleExit (t : List (Nat × Nat)) (_cid h : Nat) : List (Nat × Nat) × List Nat :=
  (t, [h])

/-! ### Concrete fixtures for witnesses and counterexamples -/

/-- Default configuration: no websearch slots, no always-show, no hints. -/
def cfg0 : Config :=
  { MaxGlobalItemsToDisplayWebsearch := 0, WebsearchAlwaysShow := false,
    WebsearchPrefixes := [] }

/-- Configuration with a registered websearch hint for queries starting
with `"g "`. -/
def cfgWeb : Config :=
  { MaxGlobalItemsToDisplayWebsearch := 0, WebsearchAlwaysShow := false,
    WebsearchPrefixes := [("g ", "ghint")] }

def itemA : Item :=
  { Identifier := "a", Text := "alpha", Subtext := "", Provider := "files", Score := 10 }

def itemB : Item :=
  { Identifier := "b", Text := "beta", Subtext := "", Provider := "files", Score := 4 }

def itemHint : Item :=
  { Identifier := "w1", Text := "ghint", Subtext := "", Provider := "websearch", Score := 5 }

def itemOther : Item :=
  { Identifier := "w2", Text := "other", Subtext := "", Provider := "websearch", Score := 1 }

/-- Registry with a single provider returning one item. -/
def regOne : Registry := fun s =>
  if s = "files" then some (fun _ _ _ => [itemA]) else none

/-- Registry with a single provider returning two items. -/
def regTwo : Registry := fun s =>
  if s = "files" then some (fun _ _ _ => [itemA, itemB]) else none

/-- Registry with a files provider and a websearch provider. -/
def regWeb : Registry := fun s =>
  if s = "files" then some (fun _ _ _ => [itemA])
  else if s = "websearch" then some (fun _ _ _ => [itemHint, itemOther])
  else none

def req0 : QueryRequest :=
  { Providers := ["files"], Query := "q", Maxresults := 50, Exactsearch := false }

def reqTwo : QueryRequest :=
  { Providers := ["files"], Query := "q", Maxresults := 1, Exactsearch := false }

def reqWeb : QueryRequest :=
  { Providers := ["files", "websearch"], Query := "g x", Maxresults := 50,
    Exactsearch := false }

/-- Request with a negative `maxresults`, as a malicious or buggy client
can send (the wire field is a signed 32-bit integer). -/
def reqNeg : QueryRequest :=
  { Providers := ["files"], Query := "q", Maxresults := -1, Exactsearch := false }

/-! ### Basic lemmas about the string model -/

theorem char_toNat_inj {a b : Char} (h : a.toNat = b.toNat) : a = b := by
  have h2 := congrArg Char.ofNat h
  rwa [Char.ofNat_toNat, Char.ofNat_toNat] at h2

theorem string_data_inj {s t : String} : s.data = t.data ↔ s = t :=
  ⟨fun h => by cases s; cases t; exact congrArg String.mk h, fun h => congrArg _ h⟩

theorem lexCmp_trans (a : List Char) : ∀ b c : List Char,
    lexCmp a b ≤ 0 → lexCmp b c ≤ 0 → lexCmp a c ≤ 0 := by
  induction a with
  | nil => intro b c _ _; cases c <;> simp [lexCmp]
  | cons x xs ih =>
    intro b c h1 h2
    cases b with
    | nil => simp [lexCmp] at h1
    | cons y ys =>
      cases c with
      | nil => simp [lexCmp] at h2
      | cons z zs =>
        simp only [lexCmp] at h1 h2 ⊢
        split_ifs at h1 h2 ⊢ <;>
          first
          | omega
          | exact ih ys zs h1 h2

theorem lexCmp_total (a : List Char) : ∀ b : List Char,
    lexCmp a b ≤ 0 ∨ lexCmp b a ≤ 0 := by
  induction a with
  | nil => intro b; cases b <;> simp [lexCmp]
  | cons x xs ih =>
    intro b
    cases b with
    | nil => simp [lexCmp]
    | cons y ys =>
      simp only [lexCmp]
      split_ifs <;>
        first
        | omega
        | exact ih ys

theorem lexCmp_eq_zero_iff (a : List Char) : ∀ b : List Char,
    lexCmp a b = 0 ↔ a = b := by
  induction a with
  | nil => intro b; cases b <;> simp [lexCmp]
  | cons x xs ih =>
    intro b
    cases b with
    | nil => simp [lexCmp]
    | cons y ys =>
      simp only [lexCmp, List.cons.injEq]
      split_ifs with h1 h2
      · constructor
        · intro hc; exact hc.elim
        · intro hc; rw [hc.1] at h1; omega
      · constructor
        · intro hc; exact absurd hc (by omega)
        · intro hc; rw [hc.1] at h2; omega
      · have hn : x.toNat = y.toNat := by omega
        have hxy : x = y := char_toNat_inj hn
        subst hxy
        simp [ih ys]

/-! ### The comparator and the ranking order -/

theorem sortEntries_le_iff (a b : Item) : sortEntries a b ≤ 0 ↔ rankLE a b := by
  unfold sortEntries rankLE
  split_ifs with h1 h2
  · exact iff_of_true (by omega) (Or.inl h1)
  · exact iff_of_false (by omega) (by rintro (h | ⟨he, _⟩) <;> omega)
  · have he : a.Score = b.Score := by omega
    simp [he, lt_irrefl]

theorem sortEntries_eq_zero_iff (a b : Item) :
    sortEntries a b = 0 ↔ a.Score = b.Score ∧ goToLower a.Text = goToLower b.Text := by
  unfold sortEntries
  split_ifs with h1 h2
  · constructor
    · intro hc; simp at hc
    · intro hc; rw [hc.1] at h1; exact absurd h1 (lt_irrefl _)
  · constructor
    · intro hc; simp at hc
    · intro hc; rw [hc.1] at h2; exact absurd h2 (lt_irrefl _)
  · have he : a.Score = b.Score := by omega
    unfold stringsCompare
    rw [lexCmp_eq_zero_iff, string_data_inj]
    simp [he]

theorem rankLE_trans {a b c : Item} (h1 : rankLE a b) (h2 : rankLE b c) : rankLE a c := by
  unfold rankLE stringsCompare at *
  rcases h1 with h1 | ⟨e1, t1⟩ <;> rcases h2 with h2 | ⟨e2, t2⟩
  · left; omega
  · left; omega
  · left; omega
  · exact Or.inr ⟨by omega, lexCmp_trans _ _ _ t1 t2⟩

theorem rankLE_total (a b : Item) : rankLE a b ∨ rankLE b a := by
  unfold rankLE stringsCompare
  rcases lt_trichotomy a.Score b.Score with h | h | h
  · exact Or.inr (Or.inl h)
  · rcases lexCmp_total (goToLower a.Text).data (goToLower b.Text).data with ht | ht
    · exact Or.inl (Or.inr ⟨h, ht⟩)
    · exact Or.inr (Or.inr ⟨h.symm, ht⟩)
  · exact Or.inl (Or.inl h)

instance : IsTrans Item entryLE :=
  ⟨fun a b c h1 h2 => (sortEntries_le_iff a c).mpr
    (rankLE_trans ((sortEntries_le_iff a b).mp h1) ((sortEntries_le_iff b c).mp h2))⟩

instance : IsTotal Item entryLE :=
  ⟨fun a b => by
    rcases rankLE_total a b with h | h
    · exact Or.inl ((sortEntries_le_iff a b).mpr h)
    · exact Or.inr ((sortEntries_le_iff b a).mpr h)⟩

/-! ### The result cap and the sort -/

theorem capEntries_eq_take {m : Int} (hm : 0 ≤ m) (l : List Item) :
    capEntries l m = some (l.take m.toNat) := by
  unfold capEntries
  split_ifs with h1 h2
  · omega
  · rfl
  · have hlen : l.length ≤ m.toNat := by omega
    rw [List.take_of_length_le hlen]

theorem capEntries_sublist {l capped : List Item} {m : Int}
    (h : capEntries l m = some capped) : capped.Sublist l := by
  unfold capEntries at h
  split_ifs at h with h1 h2
  · simp only [Option.some.injEq] at h
    rw [← h]
    exact (List.take_prefix _ _).sublist
  · simp only [Option.some.injEq] at h
    rw [← h]

theorem insertionSort_isEmpty (l : List Item) :
    (List.insertionSort entryLE l).isEmpty = l.isEmpty := by
  have h := (List.perm_insertionSort entryLE l).length_eq
  cases l with
  | nil => rfl
  | cons x xs =>
    cases hs : List.insertionSort entryLE (x :: xs) with
    | nil => rw [hs] at h; simp at h
    | cons y ys => simp

/-! ### The emission loop -/

theorem queryItemsOf_nil : queryItemsOf [] = [] := rfl

theorem queryItemsOf_done : queryItemsOf [Frame.queryDone] = [] := rfl

theorem queryItemsOf_emitFrames_sublist (hide : Bool) (hint : String) (cncld : Nat → Bool)
    (qid : Int) (query : String) (items : List Item) : ∀ k : Nat,
    (queryItemsOf (emitFrames hide hint cncld qid query k items)).Sublist items := by
  induction items with
  | nil =>
    intro k
    simp [emitFrames, queryItemsOf]
  | cons v rest ih =>
    intro k
    simp only [emitFrames]
    split_ifs with h1 h2
    · simp [queryItemsOf]
    · exact (ih (k + 1)).trans (List.sublist_cons_self v rest)
    · simp only [queryItemsOf, List.filterMap_cons]
      exact List.Sublist.cons₂ v (ih (k + 1))

theorem queryItemsOf_emitFrames_noCancel (hide : Bool) (hint : String) (cncld : Nat → Bool)
    (qid : Int) (query : String) (hnc : ∀ j, cncld j = false) (items : List Item) : ∀ k : Nat,
    queryItemsOf (emitFrames hide hint cncld qid query k items) =
      items.filter (fun v => !(v.Provider == "websearch" && hide && !(v.Text == hint))) := by
  induction items with
  | nil =>
    intro k
    simp [emitFrames, queryItemsOf]
  | cons v rest ih =>
    intro k
    simp only [emitFrames, hnc k, Bool.false_eq_true, if_false]
    by_cases hs : (v.Provider == "websearch" && hide && !(v.Text == hint)) = true
    · rw [if_pos hs, ih (k + 1), List.filter_cons_of_neg (by simp [hs])]
    · rw [if_neg hs]
      simp only [queryItemsOf, List.filterMap_cons]
      rw [List.filter_cons_of_pos (by simp [Bool.of_not_eq_true hs])]
      exact congrArg _ (ih (k + 1))

theorem emitFrames_mem_queryItem (hide : Bool) (hint : String) (cncld : Nat → Bool)
    (qid : Int) (query : String) (items : List Item) : ∀ (k : Nat) (i : Int) (qu : String) (it : Item),
    Frame.queryItem i qu it ∈ emitFrames hide hint cncld qid query k items →
    i = qid ∧ qu = query := by
  induction items with
  | nil =>
    intro k i qu it hmem
    simp [emitFrames] at hmem
  | cons v rest ih =>
    intro k i qu it hmem
    simp only [emitFrames] at hmem
    split_ifs at hmem with h1 h2
    · simp at hmem
    · exact ih (k + 1) i qu it hmem
    · rcases List.mem_cons.mp hmem with hh | hh
      · injection hh with e1 e2 e3
        exact ⟨e1, e2⟩
      · exact ih (k + 1) i qu it hh

theorem emitFrames_count_done (hide : Bool) (hint : String) (cncld : Nat → Bool)
    (qid : Int) (query : String) (hnc : ∀ j, cncld j = false) (items : List Item) : ∀ k : Nat,
    (emitFrames hide hint cncld qid query k items).count Frame.queryDone = 1 := by
  induction items with
  | nil => intro k; rfl
  | cons v rest ih =>
    intro k
    simp only [emitFrames, hnc k, Bool.false_eq_true, if_false]
    split_ifs with h1
    · exact ih (k + 1)
    · rw [List.count_cons]
      simp [ih (k + 1)]

theorem emitFrames_getLast (hide : Bool) (hint : String) (cncld : Nat → Bool)
    (qid : Int) (query : String) (hnc : ∀ j, cncld j = false) (items : List Item) : ∀ k : Nat,
    (emitFrames hide hint cncld qid query k items).getLast? = some Frame.queryDone := by
  induction items with
  | nil => intro k; rfl
  | cons v rest ih =>
    intro k
    simp only [emitFrames, hnc k, Bool.false_eq_true, if_false]
    split_ifs with h1
    · exact ih (k + 1)
    · rw [List.getLast?_cons, ih (k + 1)]
      rfl

theorem emitFrames_no_noResults (hide : Bool) (hint : String) (cncld : Nat → Bool)
    (qid : Int) (query : String) (items : List Item) : ∀ k : Nat,
    Frame.queryNoResults ∉ emitFrames hide hint cncld qid query k items := by
  induction items with
  | nil => intro k; simp [emitFrames]
  | cons v rest ih =>
    intro k
    simp only [emitFrames]
    split_ifs with h1 h2
    · simp
    · exact ih (k + 1)
    · intro hmem
      rcases List.mem_cons.mp hmem with hh | hh
      · exact Frame.noConfusion hh
      · exact ih (k + 1) hh

theorem emitFrames_cancelled (hide : Bool) (hint : String) (cncld : Nat → Bool)
    (qid : Int) (query : String) (k : Nat) (v : Item) (rest : List Item)
    (hc : cncld k = true) :
    emitFrames hide hint cncld qid query k (v :: rest) = [] := by
  simp [emitFrames, hc]

/-! ### Case analysis of the handler -/

theorem Handle_decode_failure (cfg : Config) (reg : Registry) (cncld : Nat → Bool) (q : Nat) :
    Handle cfg reg none cncld q = some [] := rfl

theorem Handle_cancelled (cfg : Config) (reg : Registry) (req : QueryRequest)
    (cncld : Nat → Bool) (q : Nat) (hc : cncld 0 = true) :
    Handle cfg reg (some req) cncld q = some [] := by
  simp [Handle, hc]

theorem Handle_empty (cfg : Config) (reg : Registry) (req : QueryRequest)
    (cncld : Nat → Bool) (q : Nat) (hc : cncld 0 = false)
    (he : fanOut reg req = []) :
    Handle cfg reg (some req) cncld q = some [Frame.queryNoResults, Frame.queryDone] := by
  simp [Handle, hc, he, List.insertionSort]

theorem Handle_main (cfg : Config) (reg : Registry) (req : QueryRequest)
    (cncld : Nat → Bool) (q : Nat) (capped : List Item) (hc : cncld 0 = false)
    (hne : fanOut reg req ≠ [])
    (hcap : capEntries (List.insertionSort entryLE (fanOut reg req)) req.Maxresults =
      some capped) :
    Handle cfg reg (some req) cncld q =
      some (emitFrames (hideWebsearch cfg req capped) (websearchHint cfg req) cncld
        (toInt32 q) req.Query 1 capped) := by
  have hie : (List.insertionSort entryLE (fanOut reg req)).isEmpty = false := by
    rw [insertionSort_isEmpty]
    cases hfo : fanOut reg req with
    | nil => exact absurd hfo hne
    | cons x xs => rfl
  simp [Handle, hc, hie, hcap]

theorem Handle_panic (cfg : Config) (reg : Registry) (req : QueryRequest)
    (cncld : Nat → Bool) (q : Nat) (hc : cncld 0 = false)
    (hne : fanOut reg req ≠ [])
    (hcap : capEntries (List.insertionSort entryLE (fanOut reg req)) req.Maxresults = none) :
    Handle cfg reg (some req) cncld q = none := by
  have hie : (List.insertionSort entryLE (fanOut reg req)).isEmpty = false := by
    rw [insertionSort_isEmpty]
    cases hfo : fanOut reg req with
    | nil => exact absurd hfo hne
    | cons x xs => rfl
  simp [Handle, hc, hie, hcap]

theorem Handle_some_inv {cfg : Config} {reg : Registry} {req : QueryRequest}
    {cncld : Nat → Bool} {q : Nat} {out : List Frame}
    (h : Handle cfg reg (some req) cncld q = some out) :
    (cncld 0 = true ∧ out = []) ∨
    (cncld 0 = false ∧ fanOut reg req = [] ∧
      out = [Frame.queryNoResults, Frame.queryDone]) ∨
    (cncld 0 = false ∧ fanOut reg req ≠ [] ∧
      ∃ capped, capEntries (List.insertionSort entryLE (fanOut reg req)) req.Maxresults =
          some capped ∧
        out = emitFrames (hideWebsearch cfg req capped) (websearchHint cfg req) cncld
          (toInt32 q) req.Query 1 capped) := by
  by_cases hc : cncld 0 = true
  · rw [Handle_cancelled cfg reg req cncld q hc] at h
    injection h with h
    exact Or.inl ⟨hc, h.symm⟩
  · have hc' : cncld 0 = false := by
      cases hcv : cncld 0 with
      | true => exact absurd hcv hc
      | false => rfl
    by_cases hfo : fanOut reg req = []
    · rw [Handle_empty cfg reg req cncld q hc' hfo] at h
      injection h with h
      exact Or.inr (Or.inl ⟨hc', hfo, h.symm⟩)
    · cases hcap : capEntries (List.insertionSort entryLE (fanOut reg req)) req.Maxresults with
      | none =>
        rw [Handle_panic cfg reg req cncld q hc' hfo hcap] at h
        exact Option.noConfusion h
      | some capped =>
        rw [Handle_main cfg reg req cncld q capped hc' hfo hcap] at h
        injection h with h
        exact Or.inr (Or.inr ⟨hc', hfo, capped, rfl, h.symm⟩)

/-! ### The menus routing rewrite -/

theorem isPrefixOf_append (p l : List Char) : p.isPrefixOf (p ++ l) = true := by
  induction p with
  | nil => simp [List.isPrefixOf]
  | cons c cs ih => simp [List.isPrefixOf, ih]

theorem splitSep_no_sep {sep : Char} {l : List Char} (h : ∀ c ∈ l, c ≠ sep) :
    splitSep sep l = [l] := by
  induction l with
  | nil => rfl
  | cons c cs ih =>
    have hc : c ≠ sep := h c (List.mem_cons_self c cs)
    have ih2 := ih (fun d hd => h d (List.mem_cons_of_mem c hd))
    simp [splitSep, hc, ih2]

theorem splitSep_append {sep : Char} {p : List Char} (l : List Char)
    (h : ∀ c ∈ p, c ≠ sep) :
    splitSep sep (p ++ sep :: l) = p :: splitSep sep l := by
  induction p with
  | nil => simp [splitSep]
  | cons c cs ih =>
    have hc : c ≠ sep := h c (List.mem_cons_self c cs)
    have ih2 := ih (fun d hd => h d (List.mem_cons_of_mem c hd))
    simp [splitSep, hc, ih2]

theorem data_menus_append (menu : String) :
    ("menus:" ++ menu).data = "menus".data ++ ':' :: menu.data := by
  rw [String.data_append]
  rfl

theorem rewriteProvider_menus (menu q : String) (h : ∀ c ∈ menu.data, c ≠ ':') :
    rewriteProvider ("menus:" ++ menu) q = ("menus", menu ++ ":" ++ q) := by
  have hsw : goStartsWith ("menus:" ++ menu) "menus:" = true := by
    unfold goStartsWith
    rw [String.data_append]
    exact isPrefixOf_append _ _
  have hsplit : goSplitColon ("menus:" ++ menu) = ["menus", menu] := by
    unfold goSplitColon
    rw [data_menus_append, splitSep_append menu.data (by decide), splitSep_no_sep h]
    rfl
  unfold rewriteProvider
  rw [hsw]
  simp [hsplit]

theorem rewriteProvider_other (v q : String) (h : goStartsWith v "menus:" = false) :
    rewriteProvider v q = (v, q) := by
  unfold rewriteProvider
  rw [h]
  rfl

/-! ### The cancel table -/

theorem tableLookup_tableSet (t : List (Nat × Nat)) (cid h : Nat) :
    tableLookup (tableSet t cid h) cid = some h := by
  induction t with
  | nil => simp [tableSet, tableLookup]
  | cons p rest ih =>
    obtain ⟨c, h0⟩ := p
    by_cases hcc : c = cid
    · simp [tableSet, tableLookup, hcc]
    · simp [tableSet, tableLookup, hcc, ih]

/-! ### Claim theorems -/

/-- C1: for every query the dispatcher handles, the items carried by the
emitted `QueryItem` frames appear in non-increasing `score` order, with
score ties in non-decreasing order of the case-insensitively lowered
`text`; and the comparator used on the merged list realizes exactly this
deterministic total order: `sortEntries a b` is non-positive precisely
when `a` may precede `b`, and zero precisely on equal
`(score, lowered text)` keys. -/
theorem c1_emission_order (cfg : Config) (reg : Registry) (dec : Option QueryRequest)
    (cncld : Nat → Bool) (q : Nat) (out : List Frame)
    (h : Handle cfg reg dec cncld q = some out) :
    List.Pairwise rankLE (queryItemsOf out) ∧
    ∀ a b : Item, (sortEntries a b ≤ 0 ↔ rankLE a b) ∧
      (sortEntries a b = 0 ↔ a.Score = b.Score ∧ goToLower a.Text = goToLower b.Text) := by
  refine ⟨?_, fun a b => ⟨sortEntries_le_iff a b, sortEntries_eq_zero_iff a b⟩⟩
  cases dec with
  | none =>
    rw [Handle_decode_failure] at h
    injection h with h
    rw [← h]
    exact List.Pairwise.nil
  | some req =>
    rcases Handle_some_inv h with ⟨_, rfl⟩ | ⟨_, _, rfl⟩ | ⟨_, _, capped, hcap, rfl⟩
    · exact List.Pairwise.nil
    · exact List.Pairwise.nil
    · have hsorted : List.Sorted entryLE (List.insertionSort entryLE (fanOut reg req)) :=
        List.sorted_insertionSort entryLE (fanOut reg req)
      have hsub : (queryItemsOf (emitFrames (hideWebsearch cfg req capped)
          (websearchHint cfg req) cncld (toInt32 q) req.Query 1 capped)).Sublist capped :=
        queryItemsOf_emitFrames_sublist _ _ _ _ _ capped 1
      have hp := List.Pairwise.sublist (hsub.trans (capEntries_sublist hcap)) hsorted
      exact hp.imp (fun hab => (sortEntries_le_iff _ _).mp hab)

/-- C1 witness: the order property evaluated on a concrete handled query. -/
theorem c1_emission_order_witness :
    List.Pairwise rankLE (queryItemsOf [Frame.queryItem 1 "q" itemA, Frame.queryDone]) ∧
    ∀ a b : Item, (sortEntries a b ≤ 0 ↔ rankLE a b) ∧
      (sortEntries a b = 0 ↔ a.Score = b.Score ∧ goToLower a.Text = goToLower b.Text) :=
  c1_emission_order cfg0 regOne (some req0) (fun _ => false) 1
    [Frame.queryItem 1 "q" itemA, Frame.queryDone] (by decide)

/-- C2: if the cancellation signal is already set when the fan-out barrier
completes, the handler discards every accumulated item and returns with no
frame at all (no `QueryItem`, no `QueryDone`); and whenever a cancellation
check during emission observes the signal, the loop returns at once, so no
further frame of that query is written. -/
theorem c2_cancellation (cfg : Config) (reg : Registry) (req : QueryRequest)
    (cncld : Nat → Bool) (q : Nat) :
    (cncld 0 = true → Handle cfg reg (some req) cncld q = some []) ∧
    ∀ (hide : Bool) (hint : String) (k : Nat) (v : Item) (rest : List Item),
      cncld k = true →
      emitFrames hide hint cncld (toInt32 q) req.Query k (v :: rest) = [] :=
  ⟨Handle_cancelled cfg reg req cncld q,
    fun hide hint k v rest hc => emitFrames_cancelled hide hint cncld _ _ k v rest hc⟩

/-- C2 witness: a concrete cancelled query emits nothing, and a concrete
emission step observing cancellation emits nothing. -/
theorem c2_cancellation_witness :
    Handle cfg0 regOne (some req0) (fun _ => true) 1 = some [] ∧
    emitFrames false "" (fun _ => true) (toInt32 1) req0.Query 3 [itemA] = [] :=
  ⟨(c2_cancellation cfg0 regOne req0 (fun _ => true) 1).1 rfl,
    (c2_cancellation cfg0 regOne req0 (fun _ => true) 1).2 false "" 3 itemA [] rfl⟩

/-- C4 counterexample: the provider name `"menus:a:b"` is of the form
`menus:<menu>` (with `<menu> = "a:b"`), yet the dispatcher rewrites it
using only the segment between the first two colons: the menus provider
receives the query `"a:q"`, not `"a:b:q"` as the claim would require, and
the name is transformed even though under the colon-free reading of
`<menu>` it is "of another form". -/
theorem c4_counterexample :
    "menus:a:b" = "menus:" ++ "a:b" ∧
    rewriteProvider "menus:a:b" "q" = ("menus", "a:q") ∧
    rewriteProvider "menus:a:b" "q" ≠ ("menus", "a:b" ++ ":" ++ "q") := by
  decide

/-- C4 amended: for provider names `menus:<menu>` whose menu part contains
no colon, the effective provider is `menus` and the query handed to it is
`<menu>:` prepended to the original query; names not starting with
`menus:` are never transformed.  (A name `menus:<a>:<b>` is rewritten
using only `<a>`; the remainder is discarded.) -/
theorem c4_menus_rewrite (menu q v : String) :
    ((∀ c ∈ menu.data, c ≠ ':') →
      rewriteProvider ("menus:" ++ menu) q = ("menus", menu ++ ":" ++ q)) ∧
    (goStartsWith v "menus:" = false → rewriteProvider v q = (v, q)) :=
  ⟨fun h => rewriteProvider_menus menu q h, fun h => rewriteProvider_other v q h⟩

/-- C4 witness: the rewrite evaluated on a colon-free menu name and on a
non-menus provider name. -/
theorem c4_menus_rewrite_witness :
    rewriteProvider ("menus:" ++ "networks") "wifi" =
      ("menus", "networks" ++ ":" ++ "wifi") ∧
    rewriteProvider "files" "wifi" = ("files", "wifi") :=
  ⟨(c4_menus_rewrite "networks" "wifi" "files").1 (by decide),
    (c4_menus_rewrite "networks" "wifi" "files").2 (by decide)⟩

/-- C7 counterexample: on a payload that fails to decode the handler
returns without writing anything — in particular no `QueryDone` frame is
sent, contrary to the claim that `QueryDone` is still sent to release the
client. -/
theorem c7_counterexample :
    Handle cfg0 regOne none (fun _ => false) 1 = some [] ∧
    Frame.queryDone ∉ ([] : List Frame) := by
  decide

/-- C7 amended: for every request whose payload fails to decode, the
handler logs the failure and returns without emitting any frame; the
connection is left open, but no `QueryDone` is written. -/
theorem c7_decode_failure (cfg : Config) (reg : Registry) (cncld : Nat → Bool) (q : Nat) :
    Handle cfg reg none cncld q = some [] := rfl

/-- C8 counterexample: a handler that entered the cancel table for cid 0
with its own handle 1 and then exits — while still owning the slot —
leaves the entry in place: the table still maps cid 0 to handle 1, so the
entry is not cleared on exit. -/
theorem c8_counterexample :
    tableLookup (handleExit (handleEnter [] 0 1).1 0 1).1 0 = some 1 ∧
    (some 1 : Option Nat) ≠ none := by
  decide

/-- C8 amended: when a query handler exits it only cancels its own
context; the cancel-table entry for its cid is left untouched.  The slot
is replaced — and the previously installed handle invoked — only when the
next query on the same cid enters. -/
theorem c8_exit_no_clear (t : List (Nat × Nat)) (cid h h2 : Nat) :
    (handleExit t cid h).1 = t ∧
    (handleExit t cid h).2 = [h] ∧
    tableLookup (handleEnter t cid h2).1 cid = some h2 ∧
    (handleEnter t cid h2).2 = (tableLookup t cid).toList := by
  refine ⟨rfl, rfl, ?_, ?_⟩
  · unfold handleEnter
    cases htl : tableLookup t cid <;> simp [tableLookup_tableSet]
  · unfold handleEnter
    cases htl : tableLookup t cid <;> rfl

/-- C10: for every request with non-negative `maxresults` the result-cap
step is in bounds and the handler runs to completion, while a concrete
request with `maxresults = -1` and a non-empty merged list drives the
slice `entries[:maxresults]` out of bounds and the handler faults — so
totality of the dispatcher requires the non-negativity precondition. -/
theorem c10_cap_totality :
    (∀ (cfg : Config) (reg : Registry) (req : QueryRequest) (cncld : Nat → Bool) (q : Nat),
      0 ≤ req.Maxresults → (Handle cfg reg (some req) cncld q).isSome = true) ∧
    Handle cfg0 regOne (some reqNeg) (fun _ => false) 1 = none := by
  constructor
  · intro cfg reg req cncld q hmax
    by_cases hc : cncld 0 = true
    · rw [Handle_cancelled cfg reg req cncld q hc]; rfl
    · have hc2 : cncld 0 = false := by
        cases hcv : cncld 0 with
        | true => exact absurd hcv hc
        | false => rfl
      by_cases hfo : fanOut reg req = []
      · rw [Handle_empty cfg reg req cncld q hc2 hfo]; rfl
      · rw [Handle_main cfg reg req cncld q _ hc2 hfo (capEntries_eq_take hmax _)]; rfl
  · decide

/-- C10 witness: the totality statement evaluated at a concrete in-bounds
request, next to the concrete faulting one. -/
theorem c10_cap_totality_witness :
    (Handle cfg0 regOne (some req0) (fun _ => false) 1).isSome = true ∧
    Handle cfg0 regOne (some reqNeg) (fun _ => false) 1 = none :=
  ⟨c10_cap_totality.1 cfg0 regOne req0 (fun _ => false) 1 (by decide),
    c10_cap_totality.2⟩

/-- C3: for every query that completes (no cancellation), the suppression
flag equals `(len(providers) > 1) ∧ (merged count > max_global_websearch_slots)
∧ ¬always_show_websearch` — the merged count being the length of the
merged, sorted, capped sequence at the point the flag is computed — and
the streamed items are exactly the merged items minus every websearch item
with `text` different from the hint whenever the flag holds; in
particular no websearch item is streamed under suppression unless its
`text` equals the hint. -/
theorem c3_websearch_suppression (cfg : Config) (reg : Registry) (req : QueryRequest)
    (cncld : Nat → Bool) (q : Nat) (out : List Frame) (capped : List Item)
    (hnc : ∀ j, cncld j = false)
    (hne : fanOut reg req ≠ [])
    (hcap : capEntries (List.insertionSort entryLE (fanOut reg req)) req.Maxresults =
      some capped)
    (h : Handle cfg reg (some req) cncld q = some out) :
    (hideWebsearch cfg req capped = true ↔
      1 < req.Providers.length ∧
      cfg.MaxGlobalItemsToDisplayWebsearch < (capped.length : Int) ∧
      cfg.WebsearchAlwaysShow = false) ∧
    queryItemsOf out = capped.filter
      (fun v => !(v.Provider == "websearch" && hideWebsearch cfg req capped &&
        !(v.Text == websearchHint cfg req))) ∧
    ∀ it ∈ queryItemsOf out, it.Provider = "websearch" →
      hideWebsearch cfg req capped = true → it.Text = websearchHint cfg req := by
  have hout : out = emitFrames (hideWebsearch cfg req capped) (websearchHint cfg req)
      cncld (toInt32 q) req.Query 1 capped := by
    rw [Handle_main cfg reg req cncld q capped (hnc 0) hne hcap] at h
    injection h with h
    exact h.symm
  subst hout
  refine ⟨?_, queryItemsOf_emitFrames_noCancel _ _ _ _ _ hnc capped 1, ?_⟩
  · simp [hideWebsearch, Bool.and_eq_true, decide_eq_true_eq, Bool.not_eq_true',
      and_assoc]
  · intro it hmem hws hhide
    rw [queryItemsOf_emitFrames_noCancel _ _ _ _ _ hnc capped 1] at hmem
    rcases List.mem_filter.mp hmem with ⟨-, hp⟩
    simp [hws, hhide] at hp
    exact hp

/-- C3 witness: the suppression property evaluated on a concrete
two-provider query with a registered hint: the websearch item matching
the hint survives, the other websearch item is dropped. -/
theorem c3_websearch_suppression_witness :
    (hideWebsearch cfgWeb reqWeb [itemA, itemHint, itemOther] = true ↔
      1 < reqWeb.Providers.length ∧
      cfgWeb.MaxGlobalItemsToDisplayWebsearch <
        (([itemA, itemHint, itemOther] : List Item).length : Int) ∧
      cfgWeb.WebsearchAlwaysShow = false) ∧
    queryItemsOf [Frame.queryItem 1 "g x" itemA, Frame.queryItem 1 "g x" itemHint,
        Frame.queryDone] =
      ([itemA, itemHint, itemOther] : List Item).filter
        (fun v => !(v.Provider == "websearch" &&
          hideWebsearch cfgWeb reqWeb [itemA, itemHint, itemOther] &&
          !(v.Text == websearchHint cfgWeb reqWeb))) ∧
    ∀ it ∈ queryItemsOf [Frame.queryItem 1 "g x" itemA,
        Frame.queryItem 1 "g x" itemHint, Frame.queryDone],
      it.Provider = "websearch" →
      hideWebsearch cfgWeb reqWeb [itemA, itemHint, itemOther] = true →
      it.Text = websearchHint cfgWeb reqWeb :=
  c3_websearch_suppression cfgWeb regWeb reqWeb (fun _ => false) 1
    [Frame.queryItem 1 "g x" itemA, Frame.queryItem 1 "g x" itemHint, Frame.queryDone]
    [itemA, itemHint, itemOther] (fun _ => rfl) (by decide) (by decide) (by decide)

/-- C5: for every query that returns (no fault), the cap step truncates
the merged, sorted sequence to its first `maxresults` items, the number
of `QueryItem` frames emitted never exceeds `maxresults`, and the emitted
items form a subsequence of those first `maxresults` sorted items (the
highest-ranked ones). -/
theorem c5_result_cap (cfg : Config) (reg : Registry) (req : QueryRequest)
    (cncld : Nat → Bool) (q : Nat) (out : List Frame)
    (hmax : 0 ≤ req.Maxresults)
    (h : Handle cfg reg (some req) cncld q = some out) :
    capEntries (List.insertionSort entryLE (fanOut reg req)) req.Maxresults =
      some ((List.insertionSort entryLE (fanOut reg req)).take req.Maxresults.toNat) ∧
    (queryItemsOf out).length ≤ req.Maxresults.toNat ∧
    (queryItemsOf out).Sublist
      ((List.insertionSort entryLE (fanOut reg req)).take req.Maxresults.toNat) := by
  refine ⟨capEntries_eq_take hmax _, ?_⟩
  rcases Handle_some_inv h with ⟨_, rfl⟩ | ⟨_, _, rfl⟩ | ⟨_, _, capped, hcap, rfl⟩
  · exact ⟨Nat.zero_le _, List.nil_sublist _⟩
  · exact ⟨Nat.zero_le _, List.nil_sublist _⟩
  · rw [capEntries_eq_take hmax] at hcap
    injection hcap with hcap
    subst hcap
    have hsub := queryItemsOf_emitFrames_sublist
      (hideWebsearch cfg req
        ((List.insertionSort entryLE (fanOut reg req)).take req.Maxresults.toNat))
      (websearchHint cfg req) cncld (toInt32 q) req.Query
      ((List.insertionSort entryLE (fanOut reg req)).take req.Maxresults.toNat) 1
    refine ⟨le_trans hsub.length_le ?_, hsub⟩
    rw [List.length_take]
    exact min_le_left _ _

/-- C5 witness: a concrete query with two merged items and
`maxresults = 1` emits exactly the single highest-ranked item. -/
theorem c5_result_cap_witness :
    capEntries (List.insertionSort entryLE (fanOut regTwo reqTwo)) reqTwo.Maxresults =
      some ((List.insertionSort entryLE (fanOut regTwo reqTwo)).take
        reqTwo.Maxresults.toNat) ∧
    (queryItemsOf [Frame.queryItem 1 "q" itemA, Frame.queryDone]).length ≤
      reqTwo.Maxresults.toNat ∧
    (queryItemsOf [Frame.queryItem 1 "q" itemA, Frame.queryDone]).Sublist
      ((List.insertionSort entryLE (fanOut regTwo reqTwo)).take
        reqTwo.Maxresults.toNat) :=
  c5_result_cap cfg0 regTwo reqTwo (fun _ => false) 1
    [Frame.queryItem 1 "q" itemA, Frame.queryDone] (by decide) (by decide)

/-- C6 counterexample: a query cancelled at the barrier emits no frame at
all — neither `QueryDone` nor `QueryNoResults` — so "exactly one
terminator is emitted for every query" fails as soon as cancellation is
possible. -/
theorem c6_counterexample :
    Handle cfgWeb regWeb (some reqWeb) (fun _ => true) 2 = some [] ∧
    Frame.queryDone ∉ ([] : List Frame) ∧
    Frame.queryNoResults ∉ ([] : List Frame) := by
  decide

/-- C6 amended: for every query that decodes and is never cancelled,
exactly one `QueryDone` is emitted and it is the final frame; when the
merged sequence is empty the output is exactly `QueryNoResults` followed
by `QueryDone` with no `QueryItem`, and otherwise no `QueryNoResults`
appears. -/
theorem c6_terminator (cfg : Config) (reg : Registry) (req : QueryRequest)
    (cncld : Nat → Bool) (q : Nat) (out : List Frame)
    (hnc : ∀ j, cncld j = false)
    (h : Handle cfg reg (some req) cncld q = some out) :
    out.count Frame.queryDone = 1 ∧
    out.getLast? = some Frame.queryDone ∧
    (fanOut reg req = [] →
      out = [Frame.queryNoResults, Frame.queryDone] ∧ queryItemsOf out = []) ∧
    (fanOut reg req ≠ [] → Frame.queryNoResults ∉ out) := by
  rcases Handle_some_inv h with ⟨hc, _⟩ | ⟨_, hfo, rfl⟩ | ⟨_, hfo, capped, hcap, rfl⟩
  · rw [hnc 0] at hc
    exact Bool.noConfusion hc
  · exact ⟨by decide, by decide, fun _ => ⟨rfl, rfl⟩, fun hne => absurd hfo hne⟩
  · exact ⟨emitFrames_count_done _ _ _ _ _ hnc capped 1,
      emitFrames_getLast _ _ _ _ _ hnc capped 1,
      fun he => absurd he hfo,
      fun _ => emitFrames_no_noResults _ _ _ _ _ capped 1⟩

/-- C6 witness: the terminator property evaluated on a concrete completed
query. -/
theorem c6_terminator_witness :
    ([Frame.queryItem 1 "q" itemA, Frame.queryDone] : List Frame).count
      Frame.queryDone = 1 ∧
    ([Frame.queryItem 1 "q" itemA, Frame.queryDone] : List Frame).getLast? =
      some Frame.queryDone ∧
    (fanOut regOne req0 = [] →
      [Frame.queryItem 1 "q" itemA, Frame.queryDone] =
        [Frame.queryNoResults, Frame.queryDone] ∧
      queryItemsOf [Frame.queryItem 1 "q" itemA, Frame.queryDone] = []) ∧
    (fanOut regOne req0 ≠ [] →
      Frame.queryNoResults ∉ ([Frame.queryItem 1 "q" itemA, Frame.queryDone] : List Frame)) :=
  c6_terminator cfg0 regOne req0 (fun _ => false) 1
    [Frame.queryItem 1 "q" itemA, Frame.queryDone] (fun _ => rfl) (by decide)

/-- C9 counterexample: the query counter is a `uint32` and wraps: the
query after the one assigned qid 4294967295 is assigned qid 0, which is
not strictly greater, so strict increase over the whole process lifetime
fails. -/
theorem c9_counterexample :
    nextQid (2 ^ 32 - 2) = 2 ^ 32 - 1 ∧
    nextQid (nextQid (2 ^ 32 - 2)) = 0 ∧
    ¬(nextQid (2 ^ 32 - 2) < nextQid (nextQid (2 ^ 32 - 2))) := by
  decide

/-- C9 amended: as long as the counter does not wrap (fewer than `2^32`
assignments), consecutive queries receive strictly increasing qids; and
every `QueryItem` frame of a query carries the `int32` reinterpretation
of that query's assigned qid, which equals the qid itself whenever it is
below `2^31`. -/
theorem c9_qid_monotone (q : Nat) (cfg : Config) (reg : Registry)
    (dec : Option QueryRequest) (cncld : Nat → Bool) (out : List Frame)
    (hq : q + 1 < 2 ^ 32)
    (h : Handle cfg reg dec cncld (nextQid q) = some out) :
    q < nextQid q ∧
    (nextQid q < 2 ^ 31 → toInt32 (nextQid q) = (nextQid q : Int)) ∧
    ∀ (i : Int) (qu : String) (it : Item),
      Frame.queryItem i qu it ∈ out → i = toInt32 (nextQid q) := by
  have hnq : nextQid q = q + 1 := Nat.mod_eq_of_lt hq
  refine ⟨by omega, ?_, ?_⟩
  · intro hlt
    unfold toInt32
    rw [Nat.mod_eq_of_lt (show nextQid q < 2 ^ 32 by omega), if_pos hlt]
  · intro i qu it hmem
    cases dec with
    | none =>
      rw [Handle_decode_failure] at h
      injection h with h
      rw [← h] at hmem
      simp at hmem
    | some req =>
      rcases Handle_some_inv h with ⟨_, rfl⟩ | ⟨_, _, rfl⟩ | ⟨_, _, capped, hcap, rfl⟩
      · simp at hmem
      · simp at hmem
      · exact (emitFrames_mem_queryItem _ _ _ _ _ capped 1 i qu it hmem).1

/-- C9 witness: the monotonicity-and-envelope property evaluated on a
concrete pair of counter values and a concrete handled query. -/
theorem c9_qid_monotone_witness :
    0 < nextQid 0 ∧
    (nextQid 0 < 2 ^ 31 → toInt32 (nextQid 0) = (nextQid 0 : Int)) ∧
    ∀ (i : Int) (qu : String) (it : Item),
      Frame.queryItem i qu it ∈ [Frame.queryItem 1 "q" itemA, Frame.queryDone] →
      i = toInt32 (nextQid 0) :=
  c9_qid_monotone 0 cfg0 regOne (some req0) (fun _ => false)
    [Frame.queryItem 1 "q" itemA, Frame.queryDone] (by decide) (by decide)

end Elephant
